import Mathlib

/-!
Verification of the cloud-recording file-list decoder
(`cloud_recording_service/cloud_recording_utils.go`).

The Go source is embedded shallowly:

* Strings are modelled as Lean `String` / `List Char`.  The decoder only
  branches on the ASCII characters `[`, `]`, `"`, `\`, letters, digits and
  whitespace; the Go `unicode` classification functions are modelled by their
  ASCII fragments (`Char.isAlpha`, `Char.isDigit`, an explicit space class),
  on which they agree exactly.
* The calls into Go's `encoding/json` library (an external dependency, not
  part of this repository) are abstracted as a record of parsing functions
  (`JsonParsers`); theorems about the decoder's control flow are proved for
  every such record, and concrete instantiations that agree with
  `encoding/json` on the exercised inputs are used for closed test theorems.
* Fallible operations return `Except`, with the `String` payload standing for
  the Go `error` value carried by `fmt.Errorf`.
-/

/-- ASCII fragment of Go's `unicode.IsSpace`, used by `strings.TrimSpace`:
space, tab, newline, vertical tab, form feed, carriage return. -/
def goIsSpace (c : Char) : Bool :=
  c = ' ' || c = '\t' || c = '\n' || c = '\x0b' || c = '\x0c' || c = '\r'

/-- Embedding of `strings.TrimSpace`: drop whitespace from both ends. -/
def trimSpace (s : String) : String :=
  String.mk (((s.data.dropWhile goIsSpace).reverse.dropWhile goIsSpace).reverse)

/-- The letter-filtering loop of `looksLikeFalseLiteral` (Go lines 143–155):
letters are kept lowercased, digits are skipped as noise, and every other
character falls through the loop body and is likewise dropped. -/
def lettersLowerAux : List Char → List Char
  | [] => []
  | c :: rest =>
    if c.isAlpha then c.toLower :: lettersLowerAux rest
    else if c.isDigit then lettersLowerAux rest
    else lettersLowerAux rest

/-- Embedding of the Go function `looksLikeFalseLiteral` (lines 142–166).
`normalized == "false"` is the exact-match rule; the second rule asks for
length 4, leading `"f"` (`strings.HasPrefix`) and trailing `"lse"`
(`strings.HasSuffix`). -/
def looksLikeFalseLiteral (input : String) : Bool :=
  let normalized := lettersLowerAux input.data
  if normalized = ['f', 'a', 'l', 's', 'e'] then true
  else if normalized.length = 4 ∧ (['f'].isPrefixOf normalized)
      ∧ (['l', 's', 'e'].isSuffixOf normalized) then true
  else false

/-- The scanning loop of `extractJSONArray` (Go lines 105–136).  `acc` holds
the characters already consumed (in reverse); the remaining arguments mirror
the Go mutable state `depth : int`, `inString`, `escaped`.  Returning `some`
corresponds to the Go `return input[start : i+1], true`. -/
def scanArray (acc : List Char) (cs : List Char)
    (depth : Int) (inString escaped : Bool) : Option (List Char) :=
  match cs with
  | [] => none
  | c :: rest =>
    if inString then
      if escaped then scanArray (c :: acc) rest depth inString false
      else if c = '\\' then scanArray (c :: acc) rest depth inString true
      else if c = '"' then scanArray (c :: acc) rest depth false escaped
      else scanArray (c :: acc) rest depth inString escaped
    else
      if c = '"' then scanArray (c :: acc) rest depth true escaped
      else if c = '[' then scanArray (c :: acc) rest (depth + 1) inString escaped
      else if c = ']' then
        if depth - 1 = 0 then some (List.reverse (c :: acc))
        else scanArray (c :: acc) rest (depth - 1) inString escaped
      else scanArray (c :: acc) rest depth inString escaped

/-- The suffix of the input starting at the first `[`, i.e. the region scanned
by `extractJSONArray` after `start := strings.Index(input, "[")`; empty iff
`strings.Index` returns `-1`. -/
def bracketSuffix (input : String) : List Char :=
  input.data.dropWhile (fun c => c ≠ '[')

/-- Embedding of the Go function `extractJSONArray` (lines 99–140): locate the
first `[`, then run the scanning loop from it with depth 0 and the string
flags cleared. -/
def extractJSONArray (input : String) : String × Bool :=
  match bracketSuffix input with
  | [] => ("", false)
  | _ :: _ =>
    match scanArray [] (bracketSuffix input) 0 false false with
    | some s => (String.mk s, true)
    | none => ("", false)

example : extractJSONArray "x[[1],2]y" = ("[[1],2]", true) := by decide
example : extractJSONArray "no brackets" = ("", false) := by decide
example : extractJSONArray "[1,2" = ("", false) := by decide
example : extractJSONArray "[\"a]\",2]x" = ("[\"a]\",2]", true) := by decide
example : looksLikeFalseLiteral "False" = true := by decide
example : looksLikeFalseLiteral "f4lse" = true := by decide
example : looksLikeFalseLiteral "fxlse" = false := by decide
example : trimSpace "  false " = "false" := by decide

/-- Modelled from the spec: `FileDetail` is "a structured record describing
one recorded file (fields opaque to this core)"; its Go definition lives
outside the decoder's source file.  A single string field stands in for the
opaque record; the decoder never inspects it. -/
structure FileDetail where
  fileName : String := ""
deriving DecidableEq, Repr

/-- Modelled from the spec: `FileListEntry` is "a structured record describing
one file-list entry with a different shape"; as for `FileDetail`, one opaque
field suffices because the decoder never inspects the contents. -/
structure FileListEntry where
  fileName : String := ""
deriving DecidableEq, Repr

/-- Interface to Go's `encoding/json` (`json.Unmarshal`), which is an external
library, not code of this repository.  `decodeString` is the unmarshal into a
Go `string`, `decodeFileDetails` into `[]FileDetail`, `decodeFileListEntries`
into `[]FileListEntry`; the `String` error payload is the text of the returned
`error`. -/
structure JsonParsers (FD FE : Type) where
  decodeString : String → Except String String
  decodeFileDetails : String → Except String (List FD)
  decodeFileListEntries : String → Except String (List FE)

/-- The possible `error` results of `UnmarshalFileList`, one constructor per
`fmt.Errorf` format string in the Go source; each constructor carries the
interpolated data (`%v` / `%s`). -/
inductive DecodeError where
  /-- Go line 56: "FileListMode or FileList are empty, cannot proceed with unmarshaling". -/
  | missingInput : DecodeError
  /-- Go line 64: "error parsing FileList into string: %v". -/
  | stringDecode : String → DecodeError
  /-- Go line 84: "error parsing FileList into []FileDetail: %v". -/
  | detailDecode : String → DecodeError
  /-- Go line 91: "error parsing FileList into []FileListEntry: %v". -/
  | entryDecode : String → DecodeError
  /-- Go line 95: "unknown FileListMode: %s". -/
  | unknownMode : String → DecodeError
deriving DecidableEq, Repr

/-- Successful result of `UnmarshalFileList` (the Go `interface{}` value):
either a `[]FileDetail` (mode "string") or a `[]FileListEntry` (mode "json"). -/
inductive FileListResult (FD FE : Type) where
  | details : List FD → FileListResult FD FE
  | entries : List FE → FileListResult FD FE
deriving DecidableEq, Repr

/-- Embedding of the Go method `(*ServerResponse).UnmarshalFileList`
(lines 53–97), generalized over the recovery helpers so that theorems can
state that a code path does not depend on them (`extract` stands for
`extractJSONArray`, `falseLit` for `looksLikeFalseLiteral`; the real decoder
`UnmarshalFileList` instantiates both with the functions above).
`fileListMode` and `fileList` are the possibly-nil fields `sr.FileListMode`
and `sr.FileList`. -/
def unmarshalFileListWith {FD FE : Type}
    (extract : String → String × Bool) (falseLit : String → Bool)
    (ps : JsonParsers FD FE)
    (fileListMode : Option String) (fileList : Option String) :
    Except DecodeError (FileListResult FD FE) :=
  match fileListMode, fileList with
  | none, _ => .error .missingInput
  | some _, none => .error .missingInput
  | some mode, some raw =>
    if mode = "string" then
      match ps.decodeString raw with
      | .error e => .error (.stringDecode e)
      | .ok rawString =>
        let trimmed := trimSpace rawString
        match ps.decodeFileDetails trimmed with
        | .ok fl => .ok (.details fl)
        | .error err =>
          let candidate := extract trimmed
          match (if candidate.2 then (ps.decodeFileDetails candidate.1).toOption else none) with
          | some fl => .ok (.details fl)
          | none =>
            if falseLit trimmed then .ok (.details [])
            else .error (.detailDecode err)
    else if mode = "json" then
      match ps.decodeFileListEntries raw with
      | .ok fl => .ok (.entries fl)
      | .error e => .error (.entryDecode e)
    else
      .error (.unknownMode mode)

/-- The decoder of the Go source: `unmarshalFileListWith` instantiated with
the real recovery helpers `extractJSONArray` and `looksLikeFalseLiteral`. -/
def UnmarshalFileList {FD FE : Type} (ps : JsonParsers FD FE)
    (fileListMode : Option String) (fileList : Option String) :
    Except DecodeError (FileListResult FD FE) :=
  unmarshalFileListWith extractJSONArray looksLikeFalseLiteral ps fileListMode fileList

/-- Concrete parsing functions agreeing with Go's `encoding/json` on every
input they are applied to in the closed theorems below: `"[]"` unmarshals
into the empty slice, `"[\x7b\x7d]"` into one zero-valued record, a quoted literal
unmarshals into the string it quotes, and the remaining exercised inputs are
invalid JSON for the target type, so `json.Unmarshal` returns an error. -/
def testParsers : JsonParsers FileDetail FileListEntry where
  decodeString s :=
    if s = "\"[]\"" then .ok "[]"
    else if s = "\"false\"" then .ok "false"
    else if s = "\"garbage\"" then .ok "garbage"
    else if s = "\"[\x7b\x7d] diagnostic\"" then .ok "[\x7b\x7d] diagnostic"
    else .error "invalid character: not a JSON string"
  decodeFileDetails s :=
    if s = "[]" then .ok []
    else if s = "[\x7b\x7d]" then .ok [{}]
    else .error "invalid character: not a JSON array of FileDetail"
  decodeFileListEntries s :=
    if s = "[]" then .ok []
    else if s = "[\x7b\x7d]" then .ok [{}]
    else .error "invalid character: not a JSON array of FileListEntry"

example :
    UnmarshalFileList testParsers (some "string") (some "\"false\"") =
      .ok (.details []) := rfl
example :
    UnmarshalFileList testParsers (some "string") (some "\"[\x7b\x7d] diagnostic\"") =
      .ok (.details [({} : FileDetail)]) := rfl
example :
    UnmarshalFileList testParsers (some "string") (some "\"garbage\"") =
      .error (.detailDecode "invalid character: not a JSON array of FileDetail") := rfl
example :
    UnmarshalFileList testParsers (some "json") (some "[]") =
      .ok (.entries []) := rfl
example :
    UnmarshalFileList testParsers (some "xml") (some "[]") =
      .error (.unknownMode "xml") := rfl
example :
    UnmarshalFileList testParsers none (some "[]") =
      .error (.missingInput) := rfl

/-- The scan automaton described in §4.1 of the design: state `(depth,
inString, escaped)`, with the depth counter incremented on each unquoted `[`,
decremented on each unquoted `]`, and the string/escape flags tracking quoted
regions.  Written from the spec's words, to be compared with the loop
`scanArray` taken from the source. -/
def specScanStep : Int × Bool × Bool → Char → Int × Bool × Bool
  | (depth, inString, escaped), c =>
    if inString then
      if escaped then (depth, inString, false)
      else if c = '\\' then (depth, inString, true)
      else if c = '"' then (depth, false, escaped)
      else (depth, inString, escaped)
    else
      if c = '"' then (depth, true, escaped)
      else if c = '[' then (depth + 1, inString, escaped)
      else if c = ']' then (depth - 1, inString, escaped)
      else (depth, inString, escaped)

/-- Automaton state after consuming a list of characters from state `st`. -/
def specScanState (st : Int × Bool × Bool) (cs : List Char) : Int × Bool × Bool :=
  cs.foldl specScanStep st

/-- In state `st`, consuming `c` is the event at which "the depth counter
returns to zero": an unquoted `]` that takes the depth from 1 to 0. -/
def ClosesHere (st : Int × Bool × Bool) (c : Char) : Prop :=
  st.2.1 = false ∧ c = ']' ∧ st.1 - 1 = 0

instance (st : Int × Bool × Bool) (c : Char) : Decidable (ClosesHere st c) := by
  unfold ClosesHere; infer_instance

/-- Position `n` (counting consumed characters, so `1 ≤ n ≤ cs.length`) is a
closing position of `cs` started in state `st`: the depth counter returns to
zero exactly when the `n`-th character is consumed. -/
def closesAt (st : Int × Bool × Bool) (cs : List Char) (n : Nat) : Prop :=
  ∃ pre c post, cs = pre ++ c :: post ∧ n = pre.length + 1 ∧
    ClosesHere (specScanState st pre) c

theorem closesAt_nil (st : Int × Bool × Bool) (n : Nat) : ¬ closesAt st [] n := by
  rintro ⟨pre, c, post, h, -, -⟩
  exact absurd h (List.append_ne_nil_of_right_ne_nil pre (List.cons_ne_nil c post)).symm

theorem closesAt_pos {st : Int × Bool × Bool} {cs : List Char} {n : Nat}
    (h : closesAt st cs n) : 0 < n := by
  obtain ⟨pre, c, post, -, rfl, -⟩ := h
  exact Nat.succ_pos _

theorem closesAt_cons {st : Int × Bool × Bool} {c : Char} {rest : List Char} {n : Nat} :
    closesAt st (c :: rest) n ↔
      (n = 1 ∧ ClosesHere st c) ∨
      ∃ m, n = m + 1 ∧ closesAt (specScanStep st c) rest m := by
  constructor
  · rintro ⟨pre, d, post, heq, rfl, hclose⟩
    cases pre with
    | nil =>
      obtain ⟨rfl, rfl⟩ : c = d ∧ rest = post := by
        simpa using heq
      exact Or.inl ⟨rfl, hclose⟩
    | cons p pre =>
      obtain ⟨rfl, hrest⟩ : c = p ∧ rest = pre ++ d :: post := by
        simpa using heq
      refine Or.inr ⟨pre.length + 1, rfl, pre, d, post, hrest, rfl, ?_⟩
      simpa [specScanState] using hclose
  · rintro (⟨rfl, hclose⟩ | ⟨m, rfl, pre, d, post, heq, rfl, hclose⟩)
    · exact ⟨[], c, rest, rfl, rfl, hclose⟩
    · refine ⟨c :: pre, d, post, by simp [heq], by simp, ?_⟩
      simpa [specScanState] using hclose

theorem scanArray_cons (acc : List Char) (c : Char) (rest : List Char)
    (d : Int) (is es : Bool) :
    scanArray acc (c :: rest) d is es =
      if ClosesHere (d, is, es) c then some (List.reverse (c :: acc))
      else
        scanArray (c :: acc) rest (specScanStep (d, is, es) c).1
          (specScanStep (d, is, es) c).2.1 (specScanStep (d, is, es) c).2.2 := by
  cases is <;> cases es <;>
    simp only [scanArray, specScanStep, ClosesHere] <;>
    split_ifs <;> simp_all

theorem scanArray_some {cs : List Char} :
    ∀ {acc : List Char} {d : Int} {is es : Bool} {out : List Char},
      scanArray acc cs d is es = some out →
      ∃ n, closesAt (d, is, es) cs n ∧
        (∀ m, closesAt (d, is, es) cs m → n ≤ m) ∧
        out = acc.reverse ++ cs.take n := by
  induction cs with
  | nil => intro acc d is es out h; simp [scanArray] at h
  | cons c rest ih =>
    intro acc d is es out h
    rw [scanArray_cons] at h
    by_cases hc : ClosesHere (d, is, es) c
    · rw [if_pos hc, Option.some.injEq] at h
      refine ⟨1, closesAt_cons.mpr (Or.inl ⟨rfl, hc⟩), ?_, ?_⟩
      · intro m hm; exact closesAt_pos hm
      · simp [← h]
    · rw [if_neg hc] at h
      obtain ⟨n, hn, hmin, hout⟩ := ih h
      refine ⟨n + 1, closesAt_cons.mpr (Or.inr ⟨n, rfl, hn⟩), ?_, ?_⟩
      · intro m hm
        rcases closesAt_cons.mp hm with ⟨-, hm⟩ | ⟨k, rfl, hk⟩
        · exact absurd hm hc
        · exact Nat.succ_le_succ (hmin k hk)
      · simp [hout, List.take_succ_cons]

theorem scanArray_none (cs : List Char) :
    ∀ (acc : List Char) (d : Int) (is es : Bool),
      scanArray acc cs d is es = none →
      ∀ n, ¬ closesAt (d, is, es) cs n := by
  induction cs with
  | nil => intro acc d is es _ n; exact closesAt_nil _ n
  | cons c rest ih =>
    intro acc d is es h n hn
    rw [scanArray_cons] at h
    by_cases hc : ClosesHere (d, is, es) c
    · rw [if_pos hc] at h; exact Option.some_ne_none _ h
    · rw [if_neg hc] at h
      rcases closesAt_cons.mp hn with ⟨-, hm⟩ | ⟨k, rfl, hk⟩
      · exact hc hm
      · exact ih _ _ _ _ h k hk

theorem bracketSuffix_eq_nil {input : String} (h : '[' ∉ input.data) :
    bracketSuffix input = [] := by
  refine List.dropWhile_eq_nil_iff.mpr ?_
  intro x hx
  simp only [ne_eq, decide_eq_true_eq]
  rintro rfl
  exact h hx

/-- C3: for every text, `extractJSONArray` scans forward from the first `[`,
tracking nesting depth and string/escape state, and on success returns exactly
the substring from that first `[` through the `]` at which the depth counter
first returns to zero; with no `[` at all, or when no such closing position
exists, it reports not-found. -/
theorem c3_extractJSONArray_spec (input : String) :
    (('[' ∉ input.data) → extractJSONArray input = ("", false)) ∧
    (∀ s : String, extractJSONArray input = (s, true) →
      ∃ n, closesAt ((0 : Int), false, false) (bracketSuffix input) n ∧
        (∀ m, closesAt ((0 : Int), false, false) (bracketSuffix input) m → n ≤ m) ∧
        s.data = (bracketSuffix input).take n) ∧
    ((∀ n, ¬ closesAt ((0 : Int), false, false) (bracketSuffix input) n) →
      extractJSONArray input = ("", false)) := by
  refine ⟨?_, ?_, ?_⟩
  · intro h
    simp [extractJSONArray, bracketSuffix_eq_nil h]
  · intro s hs
    cases hscan : scanArray [] (bracketSuffix input) 0 false false with
    | none =>
      exfalso
      rcases hb : bracketSuffix input with _ | ⟨c, rest⟩ <;>
        rw [hb] at hscan <;>
        simp [extractJSONArray, hb, hscan] at hs
    | some out =>
      obtain ⟨n, hn, hmin, hout⟩ := scanArray_some hscan
      refine ⟨n, hn, hmin, ?_⟩
      have hb : bracketSuffix input ≠ [] := by
        rintro hb
        rw [hb] at hscan
        simp [scanArray] at hscan
      have : s = String.mk out := by
        rcases hb' : bracketSuffix input with _ | ⟨c, rest⟩
        · exact absurd hb' hb
        · rw [hb'] at hscan
          simp only [extractJSONArray, hb', hscan] at hs
          exact (Prod.mk.injEq _ _ _ _ ▸ hs).1.symm
      rw [this]
      simpa using hout
  · intro h
    rcases hb : bracketSuffix input with _ | ⟨c, rest⟩
    · simp [extractJSONArray, hb]
    · cases hscan : scanArray [] (c :: rest) 0 false false with
      | none => simp [extractJSONArray, hb, hscan]
      | some out =>
        exfalso
        obtain ⟨n, hn, -, -⟩ := scanArray_some (hb ▸ hscan : scanArray [] (bracketSuffix input) 0 false false = some out)
        exact h n hn

/-- C3 witness: the three parts of the theorem applied at concrete inputs.
On `"no brackets"` there is no `[`; on `"x[[1],2]y"` extraction succeeds and
returns the balanced array substring; on `"[1,2"` the scan runs out of input
(established through the loop, via `scanArray_none`). -/
theorem c3_extractJSONArray_spec_witness :
    extractJSONArray "no brackets" = ("", false) ∧
    (∃ n, closesAt ((0 : Int), false, false) (bracketSuffix "x[[1],2]y") n ∧
      (∀ m, closesAt ((0 : Int), false, false) (bracketSuffix "x[[1],2]y") m → n ≤ m) ∧
      ("[[1],2]" : String).data = (bracketSuffix "x[[1],2]y").take n) ∧
    extractJSONArray "[1,2" = ("", false) :=
  ⟨(c3_extractJSONArray_spec "no brackets").1 (by decide),
   (c3_extractJSONArray_spec "x[[1],2]y").2.1 "[[1],2]" (by decide),
   (c3_extractJSONArray_spec "[1,2").2.2
     (scanArray_none (bracketSuffix "[1,2") [] 0 false false (by decide))⟩

/-- C10: the scan starts at the first `[` of the input with the in-string
flag false even when that `[` lies inside a quoted region of the surrounding
text; hence an input that does contain a complete balanced array (here
`[1]`, extractable on its own) can still yield found = false, because the
earlier `[` inside the string literal `"ab[c"` opens a scan that the closing
quote turns into an unterminated string region. -/
theorem c10_extract_first_bracket_inside_quotes :
    extractJSONArray "\"ab[c\" [1]" = ("", false) ∧
    (∃ pre post, pre ++ ("[1]" : String).data ++ post = ("\"ab[c\" [1]" : String).data) ∧
    extractJSONArray "[1]" = ("[1]", true) :=
  ⟨by decide, ⟨("\"ab[c\" " : String).data, [], by decide⟩, by decide⟩

/-- The letter filtering described in §4.2 of the design, written from the
spec's words: keep letters only, case-folded to lowercase, discarding digits
and all other characters. -/
def specNormalize (s : String) : List Char :=
  (s.data.filter Char.isAlpha).map Char.toLower

theorem lettersLowerAux_eq (l : List Char) :
    lettersLowerAux l = (l.filter Char.isAlpha).map Char.toLower := by
  induction l with
  | nil => rfl
  | cons c rest ih =>
    by_cases h : c.isAlpha
    · simp [lettersLowerAux, h, ih, List.filter_cons]
    · by_cases hd : c.isDigit <;>
        simp [lettersLowerAux, h, hd, ih, List.filter_cons]

theorem looksLikeFalseLiteral_eq_true_iff (input : String) :
    looksLikeFalseLiteral input = true ↔
      (specNormalize input = ['f', 'a', 'l', 's', 'e'] ∨
        ((specNormalize input).length = 4 ∧ ['f'] <+: specNormalize input ∧
          ['l', 's', 'e'] <:+ specNormalize input)) := by
  have hnorm : lettersLowerAux input.data = specNormalize input :=
    lettersLowerAux_eq _
  simp only [looksLikeFalseLiteral, hnorm]
  split_ifs with h1 h2
  · simp [h1]
  · simp only [true_iff]
    exact Or.inr ⟨h2.1, List.isPrefixOf_iff_prefix.mp h2.2.1,
      List.isSuffixOf_iff_suffix.mp h2.2.2⟩
  · simp only [false_iff]
    rintro (h | ⟨hl, hp, hs⟩)
    · exact h1 h
    · exact h2 ⟨hl, List.isPrefixOf_iff_prefix.mpr hp,
        List.isSuffixOf_iff_suffix.mpr hs⟩

/-- C4: `looksLikeFalseLiteral` accepts exactly the inputs whose letters-only
lowercased filtering either equals "false" or has length 4, begins with "f"
and ends with "lse"; the spec's five concrete examples behave as stated. -/
theorem c4_looksLikeFalseLiteral_rules :
    (∀ input : String,
      looksLikeFalseLiteral input = true ↔
        (specNormalize input = ['f', 'a', 'l', 's', 'e'] ∨
          ((specNormalize input).length = 4 ∧ ['f'] <+: specNormalize input ∧
            ['l', 's', 'e'] <:+ specNormalize input))) ∧
    looksLikeFalseLiteral "false" = true ∧
    looksLikeFalseLiteral "False" = true ∧
    looksLikeFalseLiteral "f4lse" = true ∧
    looksLikeFalseLiteral "true" = false ∧
    looksLikeFalseLiteral "" = false :=
  ⟨looksLikeFalseLiteral_eq_true_iff, by decide, by decide, by decide,
    by decide, by decide⟩

theorem length_four_shape {n : List Char} :
    n.length = 4 ∧ ['f'] <+: n ∧ ['l', 's', 'e'] <:+ n ↔ n = ['f', 'l', 's', 'e'] := by
  constructor
  · rintro ⟨hlen, ⟨t1, ht1⟩, ⟨t2, ht2⟩⟩
    have hlt : t2.length = 1 := by
      have h := congrArg List.length ht2
      simp at h
      omega
    rcases t2 with _ | ⟨x, t2⟩
    · simp at hlt
    rcases t2 with _ | ⟨y, t2⟩
    · have hn : n = x :: ['l', 's', 'e'] := by simpa using ht2.symm
      subst hn
      have h := ht1
      simp only [List.cons_append, List.nil_append] at h
      injection h with h1 h2
      rw [← h1]
    · simp at hlt
  · rintro rfl
    exact ⟨rfl, ⟨['l', 's', 'e'], rfl⟩, ⟨['f'], rfl⟩⟩

/-- C9: the recognizer's acceptance set is exactly the two letter-skeletons
"false" and "flse" (of the filtered, lowercased input); replacing an interior
letter by a different letter, as in "fxlse", yields a five-letter skeleton and
is rejected. -/
theorem c9_recognizer_acceptance_set :
    (∀ input : String,
      looksLikeFalseLiteral input = true ↔
        (specNormalize input = ['f', 'a', 'l', 's', 'e'] ∨
          specNormalize input = ['f', 'l', 's', 'e'])) ∧
    looksLikeFalseLiteral "fxlse" = false := by
  refine ⟨?_, by decide⟩
  intro input
  rw [looksLikeFalseLiteral_eq_true_iff]
  constructor
  · rintro (h | h)
    · exact Or.inl h
    · exact Or.inr (length_four_shape.mp h)
  · rintro (h | h)
    · exact Or.inl h
    · exact Or.inr (length_four_shape.mpr h)

/-- C7: when the mode tag or the raw payload is absent, the decoder returns
the missing-input error.  The statement quantifies over the recovery helpers
and the JSON parsing functions, so the result is reached before — and
independently of — any mode-specific logic, whatever the other field holds. -/
theorem c7_missing_input (FD FE : Type)
    (extract : String → String × Bool) (falseLit : String → Bool)
    (ps : JsonParsers FD FE) (fileListMode fileList : Option String)
    (h : fileListMode = none ∨ fileList = none) :
    unmarshalFileListWith extract falseLit ps fileListMode fileList =
      .error .missingInput := by
  rcases h with rfl | rfl
  · rfl
  · cases fileListMode with
    | none => rfl
    | some m => rfl

/-- C7 witness: an absent mode tag with a present payload is rejected. -/
theorem c7_missing_input_witness :
    unmarshalFileListWith extractJSONArray looksLikeFalseLiteral testParsers
      none (some "[]") = .error .missingInput :=
  c7_missing_input FileDetail FileListEntry extractJSONArray looksLikeFalseLiteral
    testParsers none (some "[]") (Or.inl rfl)

/-- C8: every present mode tag other than "string" and "json" fails with the
unrecognized-mode error carrying the offending value (Go: `fmt.Errorf("unknown
FileListMode: %s", *sr.FileListMode)`). -/
theorem c8_unknown_mode (FD FE : Type)
    (extract : String → String × Bool) (falseLit : String → Bool)
    (ps : JsonParsers FD FE) (mode raw : String)
    (h1 : mode ≠ "string") (h2 : mode ≠ "json") :
    unmarshalFileListWith extract falseLit ps (some mode) (some raw) =
      .error (.unknownMode mode) := by
  simp only [unmarshalFileListWith, if_neg h1, if_neg h2]

/-- C8 witness: the spec's example mode "xml" is rejected with the error
naming "xml". -/
theorem c8_unknown_mode_witness :
    unmarshalFileListWith extractJSONArray looksLikeFalseLiteral testParsers
      (some "xml") (some "[]") = .error (.unknownMode "xml") :=
  c8_unknown_mode FileDetail FileListEntry extractJSONArray looksLikeFalseLiteral
    testParsers "xml" "[]" (by decide) (by decide)

/-- C6: in "string" mode, a payload whose raw bytes fail to decode as an
outer JSON string literal fails immediately with the encoding error; the
quantification over `extract` and `falseLit` shows neither recovery helper
is consulted for this failure. -/
theorem c6_outer_string_failure_no_recovery (FD FE : Type)
    (extract : String → String × Bool) (falseLit : String → Bool)
    (ps : JsonParsers FD FE) (raw e : String)
    (h : ps.decodeString raw = .error e) :
    unmarshalFileListWith extract falseLit ps (some "string") (some raw) =
      .error (.stringDecode e) := by
  simp [unmarshalFileListWith, h]

/-- C6 witness: a payload that is not even a JSON string literal fails with
the encoding error, under the real recovery helpers. -/
theorem c6_outer_string_failure_witness :
    unmarshalFileListWith extractJSONArray looksLikeFalseLiteral testParsers
      (some "string") (some "not-json") =
      .error (.stringDecode "invalid character: not a JSON string") :=
  c6_outer_string_failure_no_recovery FileDetail FileListEntry extractJSONArray
    looksLikeFalseLiteral testParsers "not-json"
    "invalid character: not a JSON string" rfl

/-- C5: in "json" mode, a payload that fails to parse as an array of
`FileListEntry` fails immediately with the parse error; the statement holds
for every `extract` and `falseLit`, so the extractor and the recognizer are
never invoked in this mode. -/
theorem c5_json_mode_no_recovery (FD FE : Type)
    (extract : String → String × Bool) (falseLit : String → Bool)
    (ps : JsonParsers FD FE) (raw e : String)
    (h : ps.decodeFileListEntries raw = .error e) :
    unmarshalFileListWith extract falseLit ps (some "json") (some raw) =
      .error (.entryDecode e) := by
  simp [unmarshalFileListWith, h]

/-- C5 witness: a malformed array in "json" mode fails with the parse error,
under the real recovery helpers. -/
theorem c5_json_mode_no_recovery_witness :
    unmarshalFileListWith extractJSONArray looksLikeFalseLiteral testParsers
      (some "json") (some "[\x7d") =
      .error (.entryDecode "invalid character: not a JSON array of FileListEntry") :=
  c5_json_mode_no_recovery FileDetail FileListEntry extractJSONArray
    looksLikeFalseLiteral testParsers "[\x7d"
    "invalid character: not a JSON array of FileListEntry" rfl

/-- C1: in "string" mode, when the trimmed inner text fails to parse as an
array of `FileDetail`, recovery runs in strict order: a found-and-parsable
extractor candidate wins (part 1, with no condition on the recognizer);
otherwise a recognizer match yields the explicitly empty list (part 2);
otherwise the decoder fails carrying the original parse error `e` from the
primary path, not the extractor's failure `e2` (part 3). -/
theorem c1_string_mode_recovery_order (FD FE : Type) (ps : JsonParsers FD FE)
    (raw s e : String)
    (h1 : ps.decodeString raw = .ok s)
    (h2 : ps.decodeFileDetails (trimSpace s) = .error e) :
    (∀ fl : List FD, (extractJSONArray (trimSpace s)).2 = true →
      ps.decodeFileDetails (extractJSONArray (trimSpace s)).1 = .ok fl →
      UnmarshalFileList ps (some "string") (some raw) = .ok (.details fl)) ∧
    ((extractJSONArray (trimSpace s)).2 = false ∨
      (∃ e2, ps.decodeFileDetails (extractJSONArray (trimSpace s)).1 = .error e2) →
      looksLikeFalseLiteral (trimSpace s) = true →
      UnmarshalFileList ps (some "string") (some raw) = .ok (.details [])) ∧
    ((extractJSONArray (trimSpace s)).2 = false ∨
      (∃ e2, ps.decodeFileDetails (extractJSONArray (trimSpace s)).1 = .error e2) →
      looksLikeFalseLiteral (trimSpace s) = false →
      UnmarshalFileList ps (some "string") (some raw) = .error (.detailDecode e)) := by
  refine ⟨?_, ?_, ?_⟩
  · intro fl hfound hparse
    simp [UnmarshalFileList, unmarshalFileListWith, h1, h2, hfound, hparse,
      Except.toOption]
  · rintro (hfail | ⟨e2, he2⟩) hlit
    · simp [UnmarshalFileList, unmarshalFileListWith, h1, h2, hfail, hlit]
    · simp [UnmarshalFileList, unmarshalFileListWith, h1, h2, he2, hlit,
        Except.toOption]
  · rintro (hfail | ⟨e2, he2⟩) hlit
    · simp [UnmarshalFileList, unmarshalFileListWith, h1, h2, hfail, hlit]
    · simp [UnmarshalFileList, unmarshalFileListWith, h1, h2, he2, hlit,
        Except.toOption]

/-- C1 witness: the extractor branch of the recovery chain at a concrete
input — a valid array followed by trailing diagnostic text fails the primary
parse, and the extracted candidate parses to a one-element list. -/
theorem c1_string_mode_recovery_order_witness :
    UnmarshalFileList testParsers (some "string")
      (some "\"[\x7b\x7d] diagnostic\"") = .ok (.details [({} : FileDetail)]) :=
  (c1_string_mode_recovery_order FileDetail FileListEntry testParsers
    "\"[\x7b\x7d] diagnostic\"" "[\x7b\x7d] diagnostic"
    "invalid character: not a JSON array of FileDetail" rfl rfl).1
    [({} : FileDetail)] rfl rfl

/-- The extractor-based recovery step of the "string" branch (Go lines
71–75): the value recovered from the extracted candidate, if any. -/
def extractorRecovery {FD FE : Type} (ps : JsonParsers FD FE) (t : String) :
    Option (List FD) :=
  if (extractJSONArray t).2 then
    (ps.decodeFileDetails (extractJSONArray t).1).toOption
  else none

theorem UnmarshalFileList_string_eq {FD FE : Type} (ps : JsonParsers FD FE)
    (raw : String) :
    UnmarshalFileList ps (some "string") (some raw) =
      match ps.decodeString raw with
      | .error e => .error (.stringDecode e)
      | .ok s =>
        match ps.decodeFileDetails (trimSpace s) with
        | .ok fl => .ok (.details fl)
        | .error e =>
          match extractorRecovery ps (trimSpace s) with
          | some fl => .ok (.details fl)
          | none =>
            if looksLikeFalseLiteral (trimSpace s) then .ok (.details [])
            else .error (.detailDecode e) := rfl

/-- C2 (amended): characterization of every empty-list result of the decoder.
An empty `FileDetail` list arises in "string" mode from a successful primary
parse of an empty array, from an extracted candidate parsing to an empty
array, or — only after both of those fail — from the false-literal
recognizer; an empty `FileListEntry` list arises in "json" mode from a
successful parse of an empty array. -/
theorem c2_empty_list_characterization (FD FE : Type) (ps : JsonParsers FD FE)
    (fileListMode fileList : Option String) :
    (UnmarshalFileList ps fileListMode fileList = .ok (.details ([] : List FD)) →
      fileListMode = some "string" ∧
      ∃ raw s, fileList = some raw ∧ ps.decodeString raw = .ok s ∧
        (ps.decodeFileDetails (trimSpace s) = .ok ([] : List FD) ∨
          ((∃ e, ps.decodeFileDetails (trimSpace s) = .error e) ∧
            (extractorRecovery ps (trimSpace s) = some [] ∨
              (extractorRecovery ps (trimSpace s) = none ∧
                looksLikeFalseLiteral (trimSpace s) = true))))) ∧
    (UnmarshalFileList ps fileListMode fileList = .ok (.entries ([] : List FE)) →
      fileListMode = some "json" ∧
      ∃ raw, fileList = some raw ∧
        ps.decodeFileListEntries raw = .ok ([] : List FE)) := by
  constructor
  · intro h
    rcases fileListMode with _ | mode
    · exact absurd h (by simp [UnmarshalFileList, unmarshalFileListWith])
    rcases fileList with _ | raw
    · exact absurd h (by simp [UnmarshalFileList, unmarshalFileListWith])
    by_cases hm : mode = "string"
    · subst hm
      refine ⟨rfl, raw, ?_⟩
      rw [UnmarshalFileList_string_eq] at h
      rcases hds : ps.decodeString raw with e | s <;> simp only [hds] at h
      · simp at h
      refine ⟨s, rfl, rfl, ?_⟩
      rcases hdf : ps.decodeFileDetails (trimSpace s) with e | fl <;> simp only [hdf] at h
      · rcases hrec : extractorRecovery ps (trimSpace s) with _ | l <;> simp only [hrec] at h
        · by_cases hlit : looksLikeFalseLiteral (trimSpace s)
          · exact Or.inr ⟨⟨e, rfl⟩, Or.inr ⟨rfl, hlit⟩⟩
          · simp [hlit] at h
        · have hl : l = [] := by
            injection h with h'
            injection h' with h''
          subst hl
          exact Or.inr ⟨⟨e, rfl⟩, Or.inl rfl⟩
      · have hl : fl = [] := by
          injection h with h'
          injection h' with h''
        subst hl
        exact Or.inl rfl
    by_cases hj : mode = "json"
    · subst hj
      exfalso
      simp only [UnmarshalFileList, unmarshalFileListWith, if_true] at h
      rcases hde : ps.decodeFileListEntries raw with e | l <;> simp only [hde] at h
      · simp at h
      · injection h with h'
        exact FileListResult.noConfusion h'
    · simp only [UnmarshalFileList, unmarshalFileListWith] at h
      rw [if_neg hm, if_neg hj] at h
      simp at h
  · intro h
    rcases fileListMode with _ | mode
    · exact absurd h (by simp [UnmarshalFileList, unmarshalFileListWith])
    rcases fileList with _ | raw
    · exact absurd h (by simp [UnmarshalFileList, unmarshalFileListWith])
    by_cases hm : mode = "string"
    · subst hm
      exfalso
      rw [UnmarshalFileList_string_eq] at h
      rcases hds : ps.decodeString raw with e | s <;> simp only [hds] at h
      · simp at h
      rcases hdf : ps.decodeFileDetails (trimSpace s) with e | fl <;> simp only [hdf] at h
      · rcases hrec : extractorRecovery ps (trimSpace s) with _ | l <;> simp only [hrec] at h
        · by_cases hlit : looksLikeFalseLiteral (trimSpace s)
          · rw [if_pos hlit] at h
            injection h with h'
            exact FileListResult.noConfusion h'
          · simp [hlit] at h
        · injection h with h'
          exact FileListResult.noConfusion h'
      · injection h with h'
        exact FileListResult.noConfusion h'
    by_cases hj : mode = "json"
    · subst hj
      refine ⟨rfl, raw, rfl, ?_⟩
      simp only [UnmarshalFileList, unmarshalFileListWith, if_true] at h
      rcases hde : ps.decodeFileListEntries raw with e | l <;> simp only [hde] at h
      · simp at h
      · have hl : l = [] := by
          injection h with h'
          injection h' with h''
        subst hl
        rfl
    · simp only [UnmarshalFileList, unmarshalFileListWith] at h
      rw [if_neg hm, if_neg hj] at h
      simp at h

/-- C2 witness: the characterization applied at the recognizer example — the
JSON-encoded payload `"false"`, which yields the explicitly empty list. -/
theorem c2_empty_list_characterization_witness :
    (some "string" : Option String) = some "string" ∧
    ∃ raw s, (some "\"false\"" : Option String) = some raw ∧
      testParsers.decodeString raw = .ok s ∧
      (testParsers.decodeFileDetails (trimSpace s) = .ok ([] : List FileDetail) ∨
        ((∃ e, testParsers.decodeFileDetails (trimSpace s) = .error e) ∧
          (extractorRecovery testParsers (trimSpace s) = some [] ∨
            (extractorRecovery testParsers (trimSpace s) = none ∧
              looksLikeFalseLiteral (trimSpace s) = true)))) :=
  (c2_empty_list_characterization FileDetail FileListEntry testParsers
    (some "string") (some "\"false\"")).1 rfl

/-- C2 counterexample: the claim says an empty list is only produced after
all JSON-array parse attempts fail and the text fuzzy-matches a false-like
literal, "in particular not through the primary parse path".  But with the
payload `"[]"` (a JSON-encoded string whose content is the empty array, which
`json.Unmarshal` parses into an empty `[]FileDetail` slice) the decoder
returns an empty list through the primary path: the primary parse succeeds
and the trimmed text does not fuzzy-match a false-like literal. -/
theorem c2_counterexample_empty_via_primary :
    UnmarshalFileList testParsers (some "string") (some "\"[]\"") =
      .ok (.details ([] : List FileDetail)) ∧
    testParsers.decodeString "\"[]\"" = .ok "[]" ∧
    trimSpace "[]" = "[]" ∧
    testParsers.decodeFileDetails "[]" = .ok [] ∧
    looksLikeFalseLiteral "[]" = false :=
  ⟨rfl, rfl, by decide, rfl, by decide⟩
